import Mathlib

/-!
Shallow embedding of `tutor/plugins.py`: the plugin registry (catalog
deduplication, enabled-plugin filtering, patch/hook/template-root indices,
the process-wide cache) and the enable/disable configuration helpers.

Python dicts are modelled as association lists with insertion-order
semantics (`dictGet` / `dictSet`); the two plugin sources
(`OfficialPlugin.INSTALLED` and the entrypoint scan) are passed as explicit
list parameters `off` and `ent`; in-place mutation of the configuration is
modelled by returning the new configuration, and a raised exception by an
`Option Err` component (on an error the returned configuration is the
unchanged input, matching the fact that the Python code raises before any
mutation).
-/

namespace Tutor

/-- `exceptions.TutorError` and Python's built-in `KeyError`. -/
inductive Err where
  | tutorError (msg : String)
  | keyError (key : String)
  deriving DecidableEq, Repr

/-- `d[key]` lookup on a Python dict modelled as an association list. -/
def dictGet {α : Type} : List (String × α) → String → Option α
  | [], _ => none
  | (k, v) :: rest, key => if k = key then some v else dictGet rest key

/-- `d[key] = v` on a Python dict: updates in place if the key exists
(keeping its position), otherwise appends at the end. -/
def dictSet {α : Type} : List (String × α) → String → α → List (String × α)
  | [], key, v => [(key, v)]
  | (k, w) :: rest, key, v =>
    if k = key then (k, v) :: rest else (k, w) :: dictSet rest key v

/-- A duck-typed Python attribute: absent, a plain value, or a zero-argument
callable. -/
inductive Attr (α : Type) where
  | absent
  | val (v : α)
  | fn (f : Unit → α)

/-- `getattr(obj, attr_name, default)`: the default if absent, otherwise the
attribute itself (a plain value on the left, a callable on the right). -/
def getattrOr {α : Type} (attr : Attr α) (default : α) : α ⊕ (Unit → α) :=
  match attr with
  | .absent => .inl default
  | .val v => .inl v
  | .fn f => .inr f

/-- `get_callable_attr(plugin, attr_name, default)`: looks the attribute up
with `getattrOr`, and if the result is callable invokes it once. The second
component counts how many invocations were performed. -/
def get_callable_attr {α : Type} (attr : Attr α) (default : α) : α × Nat :=
  match getattrOr attr default with
  | .inl v => (v, 0)
  | .inr f => (f (), 1)

/-- `getattr(obj, attr_name, None)` where `None` is the default: the raw
attribute (value or callable), never invoked. -/
def getattrOrNone {α : Type} (attr : Attr α) : Option (α ⊕ (Unit → α)) :=
  match attr with
  | .absent => none
  | .val v => some (.inl v)
  | .fn f => some (.inr f)

/-- The duck-typed object handed to `BasePlugin.__init__`: each attribute may
be absent, a value, or a zero-argument callable. -/
structure PluginObj where
  config : Attr (List (String × List (String × String)))
  patches : Attr (List (String × String))
  hooks : Attr (List (String × List String))
  templates : Attr (Option String)
  command : Attr String

/-- Number of callable invocations performed for each resolved attribute
during `BasePlugin.__init__`. -/
structure CallCounts where
  config : Nat
  patches : Nat
  hooks : Nat
  templates : Nat
  deriving DecidableEq, Repr

/-- A constructed plugin descriptor (the fields set by
`BasePlugin.__init__`). `command` holds the raw attribute, uninvoked. -/
structure BasePlugin where
  name : String
  config : List (String × List (String × String))
  patches : List (String × String)
  hooks : List (String × List String)
  templates_root : Option String
  command : Option (String ⊕ (Unit → String))

/-- `BasePlugin.__init__(name, obj)`: resolves `config`, `patches`, `hooks`
and `templates` through `get_callable_attr` (defaults `{}`, `{}`, `{}`,
`None`) and stores `command` raw. Also returns the invocation counts. -/
def BasePlugin.init (name : String) (obj : PluginObj) : BasePlugin × CallCounts :=
  let c := get_callable_attr obj.config []
  let p := get_callable_attr obj.patches []
  let h := get_callable_attr obj.hooks []
  let t := get_callable_attr obj.templates none
  ({ name := name, config := c.1, patches := p.1, hooks := h.1,
     templates_root := t.1, command := getattrOrNone obj.command },
   { config := c.2, patches := p.2, hooks := h.2, templates := t.2 })

/-- The configuration mapping. The only key this module owns is `PLUGINS`
(field `plugins`, `none` when the key is absent); every other key is kept
opaquely in `rest` and never touched. -/
structure Config where
  plugins : Option (List String)
  rest : List (String × String)
  deriving DecidableEq, Repr

def CONFIG_KEY : String := "PLUGINS"

/-- `is_enabled(config, name)`: `name in config.get(CONFIG_KEY, [])`. -/
def is_enabled (config : Config) (name : String) : Bool :=
  decide (name ∈ config.plugins.getD [])

/-- The dedup loop inside `Plugins.iter_installed`: yield each plugin whose
name has not been seen, accumulating seen names. -/
def iterInstalledFrom : List BasePlugin → List String → List BasePlugin
  | [], _ => []
  | p :: ps, seen =>
    if p.name ∈ seen then iterInstalledFrom ps seen
    else p :: iterInstalledFrom ps (p.name :: seen)

/-- The seen-name set after the dedup loop has processed a list. -/
def seenAfter : List BasePlugin → List String → List String
  | [], seen => seen
  | p :: ps, seen =>
    if p.name ∈ seen then seenAfter ps seen
    else seenAfter ps (p.name :: seen)

/-- Lexicographic comparison of character lists by Unicode code point:
the order Python's `sorted` / `list.sort` use on strings. -/
def charsLe : List Char → List Char → Bool
  | [], _ => true
  | _ :: _, [] => false
  | a :: as, b :: bs => if a = b then charsLe as bs else decide (a < b)

/-- String comparison used by Python's `sorted` / `list.sort` on names. -/
def strLe (a b : String) : Bool := charsLe a.data b.data

/-- `strLe` as a decidable relation, for `List.insertionSort`. -/
def sLe (a b : String) : Prop := strLe a b = true

instance : DecidableRel sLe := fun a b => instDecidableEqBool (strLe a b) true

/-- Python's `sorted` / `list.sort` on a list of names. On strings any
correct ascending sort produces the same list (equal strings are identical
values, so the sorted permutation is unique); insertion sort is used so the
function reduces in the kernel. -/
def sortNames (l : List String) : List String := List.insertionSort sLe l

/-- The registry: the deep-copied configuration snapshot and the three
aggregate indices built by `Plugins.__init__`. -/
structure Plugins where
  config : Config
  patches : List (String × List (String × String))
  hooks : List (String × List (String × List String))
  template_roots : List (String × String)
  deriving DecidableEq

/-- `Plugins.iter_installed()`: official plugins first, then entrypoint
plugins, deduplicated by name (first occurrence wins). -/
def Plugins.iter_installed (off ent : List BasePlugin) : List BasePlugin :=
  iterInstalledFrom (off ++ ent) []

/-- `self.patches[patch_name][plugin.name] = content` preceded by
`if patch_name not in self.patches: self.patches[patch_name] = {}`
(and the same shape for hooks). -/
def addIndexEntry {α : Type} (idx : List (String × List (String × α)))
    (key pname : String) (v : α) : List (String × List (String × α)) :=
  dictSet idx key (dictSet ((dictGet idx key).getD []) pname v)

/-- The body of the `for plugin in self.iter_enabled()` loop of
`Plugins.__init__` for one plugin. -/
def Plugins.addPlugin (st : Plugins) (p : BasePlugin) : Plugins :=
  { st with
    patches := p.patches.foldl (fun idx e => addIndexEntry idx e.1 p.name e.2) st.patches,
    hooks := p.hooks.foldl (fun idx e => addIndexEntry idx e.1 p.name e.2) st.hooks,
    template_roots :=
      match p.templates_root with
      | some s => if s.isEmpty then st.template_roots else dictSet st.template_roots p.name s
      | none => st.template_roots }

/-- The installed plugins enabled by a configuration, in catalog order:
the sequence `iter_enabled` yields. -/
def enabledList (off ent : List BasePlugin) (config : Config) : List BasePlugin :=
  (Plugins.iter_installed off ent).filter (fun p => is_enabled config p.name)

/-- `Plugins.__init__(config)`: deep-copies the configuration (value
semantics make the copy the value itself), then folds every enabled
installed plugin into the three indices. -/
def Plugins.init (off ent : List BasePlugin) (config : Config) : Plugins :=
  (enabledList off ent config).foldl
    Plugins.addPlugin
    { config := config, patches := [], hooks := [], template_roots := [] }

/-- `Plugins.iter_enabled()`: installed plugins filtered by the registry's
own configuration snapshot. -/
def Plugins.iter_enabled (pl : Plugins) (off ent : List BasePlugin) : List BasePlugin :=
  enabledList off ent pl.config

/-- `Plugins.iter_patches(name)`: the contributing plugin names sorted
ascending, each paired with its content. -/
def Plugins.iter_patches (pl : Plugins) (name : String) : List (String × String) :=
  let plugin_patches := (dictGet pl.patches name).getD []
  (sortNames (plugin_patches.map Prod.fst)).map
    (fun k => (k, (dictGet plugin_patches k).getD ""))

/-- `Plugins.iter_hooks(hook_name)`: the inner dict's items in insertion
order. -/
def Plugins.iter_hooks (pl : Plugins) (hook_name : String) : List (String × List String) :=
  (dictGet pl.hooks hook_name).getD []

/-- `Plugins.iter_template_roots()`. -/
def Plugins.iter_template_roots (pl : Plugins) : List (String × String) :=
  pl.template_roots

/-- `Plugins.instance(config)`: reuse the cached instance when its stored
configuration equals `config`, otherwise build and store a new one. Returns
the instance and the new cache state. -/
def Plugins.instance' (off ent : List BasePlugin) (inst : Option Plugins)
    (config : Config) : Plugins × Option Plugins :=
  match inst with
  | none => let built := Plugins.init off ent config; (built, some built)
  | some r =>
    if r.config = config then (r, some r)
    else let built := Plugins.init off ent config; (built, some built)

/-- Module-level `iter_installed()`. -/
def iter_installed (off ent : List BasePlugin) : List BasePlugin :=
  Plugins.iter_installed off ent

/-- `is_installed(name)`: scan of the installed plugin names. -/
def is_installed (off ent : List BasePlugin) (name : String) : Bool :=
  decide (name ∈ (iter_installed off ent).map BasePlugin.name)

/-- `enable(config, name)`: raise if not installed, no-op if already
enabled, otherwise append to `config[PLUGINS]` (created if absent) and
re-sort ascending. -/
def enable (off ent : List BasePlugin) (config : Config) (name : String) :
    Option Err × Config :=
  if ¬ is_installed off ent name then
    (some (.tutorError ("plugin '" ++ name ++ "' is not installed.")), config)
  else if is_enabled config name then
    (none, config)
  else
    (none, { config with
             plugins := some (sortNames (config.plugins.getD [] ++ [name])) })

/-- The `while name in config[CONFIG_KEY]: config[CONFIG_KEY].remove(name)`
loop of `disable`. -/
def removeAll (l : List String) (name : String) : List String :=
  if h : name ∈ l then removeAll (l.erase name) name else l
termination_by l.length
decreasing_by
  rw [List.length_erase_of_mem h]
  exact Nat.sub_lt (List.length_pos.mpr (List.ne_nil_of_mem h)) Nat.one_pos

/-- `disable(config, name)`: raises `KeyError` when the `PLUGINS` key is
absent, otherwise removes every occurrence of `name`. -/
def disable (config : Config) (name : String) : Option Err × Config :=
  match config.plugins with
  | none => (some (.keyError CONFIG_KEY), config)
  | some l => (none, { config with plugins := some (removeAll l name) })

/-- One step of a sequence of `enable` / `disable` calls on one name. -/
inductive Op where
  | en
  | dis
  deriving DecidableEq, Repr

def isEn : Op → Bool
  | .en => true
  | .dis => false

def runOp (off ent : List BasePlugin) (name : String) (op : Op) (config : Config) :
    Option Err × Config :=
  match op with
  | .en => enable off ent config name
  | .dis => disable config name

/-- Run a sequence of `enable` / `disable` calls on one name, stopping at
the first raised error (a Python exception aborts the sequence). -/
def runOps (off ent : List BasePlugin) (name : String) :
    List Op → Config → Option Err × Config
  | [], config => (none, config)
  | op :: ops, config =>
    match runOp off ent name op config with
    | (some e, c) => (some e, c)
    | (none, c) => runOps off ent name ops c

/-- The `(plugin.name, content)` pairs of the plugins in `l` whose `patches`
dict has key `X`: the contributions recorded by `Plugins.__init__`. -/
def patchContribs (l : List BasePlugin) (X : String) : List (String × String) :=
  l.filterMap (fun p => (dictGet p.patches X).map (fun c => (p.name, c)))

/-- The `(plugin.name, services)` pairs of the plugins in `l` whose `hooks`
dict has key `X`. -/
def hookContribs (l : List BasePlugin) (X : String) : List (String × List String) :=
  l.filterMap (fun p => (dictGet p.hooks X).map (fun s => (p.name, s)))

/-- All plugin names appearing in the inner dicts of a two-level index. -/
def idxContribNames {α : Type} (idx : List (String × List (String × α))) : List String :=
  idx.flatMap (fun e => e.2.map Prod.fst)

/-- Boolean check that a list of names is sorted ascending. -/
def sortedAsc : List String → Bool
  | [] => true
  | [_] => true
  | a :: b :: t => strLe a b && sortedAsc (b :: t)

/-- Concrete plugin "A" of the spec scenarios: contributes `"foo"` under
patch name `"p1"`. -/
def samplePluginA : BasePlugin :=
  { name := "A", config := [], patches := [("p1", "foo")],
    hooks := [("init", ["a1"])], templates_root := none, command := none }

/-- Concrete plugin "B" of the spec scenarios: contributes `"bar"` under
patch name `"p1"`. -/
def samplePluginB : BasePlugin :=
  { name := "B", config := [], patches := [("p1", "bar")],
    hooks := [], templates_root := some "/b", command := none }

/-- Concrete configuration with `PLUGINS = ["A", "B"]`. -/
def sampleConfigAB : Config := { plugins := some ["A", "B"], rest := [] }

/-- A concrete duck-typed plugin object exercising every attribute shape:
callable `config`, plain `patches`, absent `hooks`, callable `templates`,
plain `command`. -/
def sampleObj : PluginObj :=
  { config := .fn (fun _ => [("k", [("a", "b")])]),
    patches := .val [("p1", "foo")],
    hooks := .absent,
    templates := .fn (fun _ => some "/t"),
    command := .val "cmd" }

theorem charsLe_refl : ∀ as, charsLe as as = true
  | [] => rfl
  | a :: as => by simp [charsLe, charsLe_refl as]

theorem charsLe_total : ∀ as bs, (charsLe as bs || charsLe bs as) = true
  | [], _ => by simp [charsLe]
  | _ :: _, [] => by simp [charsLe]
  | a :: as, b :: bs => by
    by_cases hab : a = b
    · subst hab; simpa [charsLe] using charsLe_total as bs
    · rcases lt_or_gt_of_ne hab with h | h
      · simp [charsLe, hab, h]
      · simp [charsLe, hab, Ne.symm hab, h, not_lt_of_gt h]

theorem charsLe_trans : ∀ as bs cs, charsLe as bs = true → charsLe bs cs = true →
    charsLe as cs = true
  | [], _, _, _, _ => rfl
  | _ :: _, _ :: _, [], _, h2 => by simp [charsLe] at h2
  | _ :: _, [], _, h1, _ => by simp [charsLe] at h1
  | a :: as, b :: bs, c :: cs, h1, h2 => by
    by_cases hab : a = b <;> by_cases hbc : b = c
    · subst hab; subst hbc
      simp only [charsLe, if_pos rfl] at h1 h2 ⊢
      exact charsLe_trans as bs cs h1 h2
    · subst hab; simpa [charsLe, hbc] using h2
    · subst hbc; simpa [charsLe, hab] using h1
    · simp only [charsLe, if_neg hab] at h1
      simp only [charsLe, if_neg hbc] at h2
      have hac : a < c := lt_trans (of_decide_eq_true h1) (of_decide_eq_true h2)
      simp [charsLe, ne_of_lt hac, hac]

theorem charsLe_antisymm : ∀ as bs, charsLe as bs = true → charsLe bs as = true → as = bs
  | [], [], _, _ => rfl
  | [], _ :: _, _, h2 => by simp [charsLe] at h2
  | _ :: _, [], h1, _ => by simp [charsLe] at h1
  | a :: as, b :: bs, h1, h2 => by
    by_cases hab : a = b
    · subst hab
      simp only [charsLe, if_pos rfl] at h1 h2
      rw [charsLe_antisymm as bs h1 h2]
    · simp only [charsLe, if_neg hab, if_neg (Ne.symm hab)] at h1 h2
      exact absurd (of_decide_eq_true h2) (not_lt_of_gt (of_decide_eq_true h1))

instance : IsTotal String sLe :=
  ⟨fun a b => by
    have := charsLe_total a.data b.data
    rcases Bool.or_eq_true_iff.mp this with h | h
    · exact Or.inl h
    · exact Or.inr h⟩

instance : IsTrans String sLe :=
  ⟨fun a b c h1 h2 => charsLe_trans a.data b.data c.data h1 h2⟩

instance : IsAntisymm String sLe :=
  ⟨fun a b h1 h2 => String.ext (charsLe_antisymm a.data b.data h1 h2)⟩

instance : IsRefl String sLe := ⟨fun a => charsLe_refl a.data⟩

theorem mem_of_mem_iterInstalledFrom :
    ∀ {l : List BasePlugin} {seen : List String} {p : BasePlugin},
      p ∈ iterInstalledFrom l seen → p ∈ l
  | [], _, _, h => by simp [iterInstalledFrom] at h
  | q :: l, seen, p, h => by
    by_cases hq : q.name ∈ seen
    · simp only [iterInstalledFrom, if_pos hq] at h
      exact List.mem_cons_of_mem _ (mem_of_mem_iterInstalledFrom h)
    · simp only [iterInstalledFrom, if_neg hq, List.mem_cons] at h
      rcases h with h | h
      · exact h ▸ List.mem_cons_self q l
      · exact List.mem_cons_of_mem _ (mem_of_mem_iterInstalledFrom h)

theorem iterInstalledFrom_append :
    ∀ (l1 l2 : List BasePlugin) (seen : List String),
      iterInstalledFrom (l1 ++ l2) seen =
        iterInstalledFrom l1 seen ++ iterInstalledFrom l2 (seenAfter l1 seen)
  | [], _, _ => rfl
  | p :: l1, l2, seen => by
    by_cases hp : p.name ∈ seen
    · simp only [List.cons_append, iterInstalledFrom, seenAfter, if_pos hp]
      exact iterInstalledFrom_append l1 l2 seen
    · simp only [List.cons_append, iterInstalledFrom, seenAfter, if_neg hp, List.cons_append]
      exact congrArg (List.cons p) (iterInstalledFrom_append l1 l2 (p.name :: seen))

theorem name_not_mem_seen_of_mem_iterInstalledFrom :
    ∀ {l : List BasePlugin} {seen : List String} {p : BasePlugin},
      p ∈ iterInstalledFrom l seen → p.name ∉ seen
  | [], _, _, h => by simp [iterInstalledFrom] at h
  | q :: l, seen, p, h => by
    by_cases hq : q.name ∈ seen
    · simp only [iterInstalledFrom, if_pos hq] at h
      exact name_not_mem_seen_of_mem_iterInstalledFrom h
    · simp only [iterInstalledFrom, if_neg hq, List.mem_cons] at h
      rcases h with rfl | h
      · exact hq
      · intro hmem
        exact name_not_mem_seen_of_mem_iterInstalledFrom h (List.mem_cons_of_mem _ hmem)

theorem nodup_names_iterInstalledFrom :
    ∀ (l : List BasePlugin) (seen : List String),
      ((iterInstalledFrom l seen).map BasePlugin.name).Nodup
  | [], _ => by simp [iterInstalledFrom]
  | q :: l, seen => by
    by_cases hq : q.name ∈ seen
    · simp only [iterInstalledFrom, if_pos hq]
      exact nodup_names_iterInstalledFrom l seen
    · simp only [iterInstalledFrom, if_neg hq, List.map_cons, List.nodup_cons]
      refine ⟨?_, nodup_names_iterInstalledFrom l _⟩
      intro hmem
      rcases List.mem_map.mp hmem with ⟨p, hp, hname⟩
      refine name_not_mem_seen_of_mem_iterInstalledFrom hp ?_
      rw [hname]
      exact List.mem_cons_self _ _

theorem mem_seenAfter_of_mem :
    ∀ (l : List BasePlugin) (seen : List String) {n : String},
      n ∈ seen → n ∈ seenAfter l seen
  | [], _, _, h => h
  | q :: l, seen, n, h => by
    by_cases hq : q.name ∈ seen
    · simp only [seenAfter, if_pos hq]
      exact mem_seenAfter_of_mem l seen h
    · simp only [seenAfter, if_neg hq]
      exact mem_seenAfter_of_mem l _ (List.mem_cons_of_mem _ h)

theorem name_mem_seenAfter :
    ∀ (l : List BasePlugin) (seen : List String) {n : String},
      n ∈ l.map BasePlugin.name → n ∈ seenAfter l seen
  | [], _, _, h => by simp at h
  | q :: l, seen, n, h => by
    simp only [List.map_cons, List.mem_cons] at h
    rcases h with rfl | h
    · by_cases hq : q.name ∈ seen
      · simp only [seenAfter, if_pos hq]
        exact mem_seenAfter_of_mem l seen hq
      · simp only [seenAfter, if_neg hq]
        exact mem_seenAfter_of_mem l _ (List.mem_cons_self _ _)
    · by_cases hq : q.name ∈ seen
      · simp only [seenAfter, if_pos hq]
        exact name_mem_seenAfter l seen h
      · simp only [seenAfter, if_neg hq]
        exact name_mem_seenAfter l _ h

theorem mem_of_mem_seenAfter :
    ∀ (l : List BasePlugin) (seen : List String) {n : String},
      n ∈ seenAfter l seen → n ∈ l.map BasePlugin.name ∨ n ∈ seen
  | [], _, _, h => Or.inr h
  | q :: l, seen, n, h => by
    by_cases hq : q.name ∈ seen
    · simp only [seenAfter, if_pos hq] at h
      rcases mem_of_mem_seenAfter l seen h with h | h
      · exact Or.inl (by simpa using Or.inr (by simpa using h))
      · exact Or.inr h
    · simp only [seenAfter, if_neg hq] at h
      rcases mem_of_mem_seenAfter l _ h with h | h
      · exact Or.inl (by simpa using Or.inr (by simpa using h))
      · rcases List.mem_cons.mp h with rfl | h
        · exact Or.inl (by simp)
        · exact Or.inr h

theorem names_coverage :
    ∀ (l : List BasePlugin) (seen : List String) {n : String},
      n ∈ l.map BasePlugin.name →
      n ∈ seen ∨ n ∈ (iterInstalledFrom l seen).map BasePlugin.name
  | [], _, _, h => by simp at h
  | q :: l, seen, n, h => by
    simp only [List.map_cons, List.mem_cons] at h
    rcases h with rfl | h
    · by_cases hq : q.name ∈ seen
      · exact Or.inl hq
      · simp only [iterInstalledFrom, if_neg hq, List.map_cons]
        exact Or.inr (List.mem_cons_self _ _)
    · by_cases hq : q.name ∈ seen
      · simp only [iterInstalledFrom, if_pos hq]
        exact names_coverage l seen h
      · simp only [iterInstalledFrom, if_neg hq, List.map_cons]
        rcases names_coverage l (q.name :: seen) (n := n) h with hc | hc
        · rcases List.mem_cons.mp hc with rfl | hc
          · exact Or.inr (List.mem_cons_self _ _)
          · exact Or.inl hc
        · exact Or.inr (List.mem_cons_of_mem _ hc)

theorem dictGet_dictSet_self {α : Type} :
    ∀ (d : List (String × α)) (k : String) (v : α), dictGet (dictSet d k v) k = some v
  | [], k, v => by simp [dictSet, dictGet]
  | (k', w) :: d, k, v => by
    by_cases h : k' = k
    · subst h; simp [dictSet, dictGet]
    · simp [dictSet, dictGet, h, dictGet_dictSet_self d k v]

theorem dictGet_dictSet_ne {α : Type} :
    ∀ (d : List (String × α)) (k k' : String) (v : α),
      k ≠ k' → dictGet (dictSet d k v) k' = dictGet d k'
  | [], k, k', v, h => by simp [dictSet, dictGet, h]
  | (k'', w) :: d, k, k', v, h => by
    by_cases h2 : k'' = k
    · subst h2; simp [dictSet, dictGet, h]
    · simp only [dictSet, if_neg h2]
      by_cases h3 : k'' = k'
      · simp [dictGet, h3]
      · simp [dictGet, h3, dictGet_dictSet_ne d k k' v h]

theorem dictSet_of_not_mem {α : Type} :
    ∀ (d : List (String × α)) (k : String) (v : α),
      k ∉ d.map Prod.fst → dictSet d k v = d ++ [(k, v)]
  | [], _, _, _ => rfl
  | (k', w) :: d, k, v, h => by
    simp only [List.map_cons, List.mem_cons, not_or] at h
    simp only [dictSet, if_neg (Ne.symm h.1), List.cons_append]
    rw [dictSet_of_not_mem d k v h.2]

theorem mem_dictSet {α : Type} :
    ∀ (d : List (String × α)) (k : String) (v : α) (e : String × α),
      e ∈ dictSet d k v → e ∈ d ∨ e = (k, v)
  | [], k, v, e, h => by simpa [dictSet] using h
  | (k', w) :: d, k, v, e, h => by
    by_cases h2 : k' = k
    · subst h2
      rcases List.mem_cons.mp (by simpa [dictSet] using h) with rfl | h
      · exact Or.inr rfl
      · exact Or.inl (List.mem_cons_of_mem _ h)
    · rcases List.mem_cons.mp (by simpa [dictSet, h2] using h) with rfl | h
      · exact Or.inl (List.mem_cons_self _ _)
      · rcases mem_dictSet d k v e h with h | h
        · exact Or.inl (List.mem_cons_of_mem _ h)
        · exact Or.inr h

theorem dictGet_eq_none_iff {α : Type} :
    ∀ (d : List (String × α)) (k : String), dictGet d k = none ↔ k ∉ d.map Prod.fst
  | [], k => by simp [dictGet]
  | (k', v) :: d, k => by
    by_cases h : k' = k
    · subst h; simp [dictGet]
    · simp [dictGet, h, dictGet_eq_none_iff d k, Ne.symm h]

theorem dictGet_eq_some_iff_mem {α : Type} :
    ∀ (d : List (String × α)), (d.map Prod.fst).Nodup →
      ∀ (k : String) (v : α), dictGet d k = some v ↔ (k, v) ∈ d
  | [], _, k, v => by simp [dictGet]
  | (k', w) :: d, hnd, k, v => by
    simp only [List.map_cons, List.nodup_cons] at hnd
    by_cases h : k' = k
    · subst h
      have hl : dictGet ((k', w) :: d) k' = some w := by simp [dictGet]
      rw [hl]
      simp only [Option.some.injEq, List.mem_cons, Prod.mk.injEq, true_and]
      constructor
      · intro hv; exact Or.inl hv.symm
      · rintro (rfl | hmem)
        · rfl
        · exact absurd (List.mem_map_of_mem Prod.fst hmem) hnd.1
    · simp only [dictGet, if_neg h, List.mem_cons, Prod.mk.injEq]
      rw [dictGet_eq_some_iff_mem d hnd.2 k v]
      constructor
      · exact Or.inr
      · rintro (⟨rfl, -⟩ | hmem)
        · exact absurd rfl h
        · exact hmem

/-- Folding one plugin's entry dict into a two-level index does not change
the inner dict at a key the entry dict does not have. -/
theorem foldEntries_dictGet_of_not_mem {α : Type} (pname : String) :
    ∀ (es : List (String × α)) (idx : List (String × List (String × α))) (X : String),
      X ∉ es.map Prod.fst →
      dictGet (es.foldl (fun i e => addIndexEntry i e.1 pname e.2) idx) X = dictGet idx X
  | [], _, _, _ => rfl
  | (k, v) :: es, idx, X, h => by
    simp only [List.map_cons, List.mem_cons, not_or] at h
    simp only [List.foldl_cons]
    rw [foldEntries_dictGet_of_not_mem pname es _ X h.2]
    exact dictGet_dictSet_ne _ _ _ _ (Ne.symm h.1)

/-- Folding one plugin's entry dict into a two-level index: at query key
`X`, the inner dict either gains `pname ↦ es[X]` or stays unchanged. -/
theorem foldEntries_dictGetD {α : Type} (pname : String) :
    ∀ (es : List (String × α)) (idx : List (String × List (String × α))) (X : String),
      (es.map Prod.fst).Nodup →
      (dictGet (es.foldl (fun i e => addIndexEntry i e.1 pname e.2) idx) X).getD [] =
        (match dictGet es X with
         | some v => dictSet ((dictGet idx X).getD []) pname v
         | none => (dictGet idx X).getD [])
  | [], _, _, _ => rfl
  | (k, v) :: es, idx, X, hnd => by
    simp only [List.map_cons, List.nodup_cons] at hnd
    simp only [List.foldl_cons]
    by_cases h : k = X
    · subst h
      rw [foldEntries_dictGet_of_not_mem pname es _ k hnd.1]
      have h1 : dictGet ((k, v) :: es) k = some v := by simp [dictGet]
      rw [h1]
      simp [addIndexEntry, dictGet_dictSet_self]
    · rw [foldEntries_dictGetD pname es _ X hnd.2]
      have h1 : dictGet ((k, v) :: es) X = dictGet es X := by simp [dictGet, h]
      rw [h1]
      have h2 : dictGet (addIndexEntry idx k pname v) X = dictGet idx X := by
        simp only [addIndexEntry]
        exact dictGet_dictSet_ne _ _ _ _ h
      rw [h2]

/-- The patches index after folding plugins `l` into state `st`: at query
key `X`, the inner dict is the original one extended by each contribution
in order. -/
theorem foldl_addPlugin_patches (X : String) :
    ∀ (l : List BasePlugin) (st : Plugins),
      (∀ p ∈ l, (p.patches.map Prod.fst).Nodup) →
      (dictGet (l.foldl Plugins.addPlugin st).patches X).getD [] =
        (patchContribs l X).foldl (fun d e => dictSet d e.1 e.2)
          ((dictGet st.patches X).getD [])
  | [], _, _ => rfl
  | p :: l, st, hnd => by
    simp only [List.foldl_cons]
    rw [foldl_addPlugin_patches X l _ (fun q hq => hnd q (List.mem_cons_of_mem _ hq))]
    simp only [Plugins.addPlugin]
    rw [foldEntries_dictGetD p.name p.patches st.patches X (hnd p (List.mem_cons_self _ _))]
    cases hc : dictGet p.patches X with
    | none => simp [patchContribs, List.filterMap_cons, hc]
    | some c => simp [patchContribs, List.filterMap_cons, hc]

/-- Same as `foldl_addPlugin_patches` for the hooks index. -/
theorem foldl_addPlugin_hooks (X : String) :
    ∀ (l : List BasePlugin) (st : Plugins),
      (∀ p ∈ l, (p.hooks.map Prod.fst).Nodup) →
      (dictGet (l.foldl Plugins.addPlugin st).hooks X).getD [] =
        (hookContribs l X).foldl (fun d e => dictSet d e.1 e.2)
          ((dictGet st.hooks X).getD [])
  | [], _, _ => rfl
  | p :: l, st, hnd => by
    simp only [List.foldl_cons]
    rw [foldl_addPlugin_hooks X l _ (fun q hq => hnd q (List.mem_cons_of_mem _ hq))]
    simp only [Plugins.addPlugin]
    rw [foldEntries_dictGetD p.name p.hooks st.hooks X (hnd p (List.mem_cons_self _ _))]
    cases hc : dictGet p.hooks X with
    | none => simp [hookContribs, List.filterMap_cons, hc]
    | some c => simp [hookContribs, List.filterMap_cons, hc]

/-- C2: `iterInstalled()` yields officially-registered plugins first, then
entrypoint-discovered ones; exactly one descriptor per installed name; on a
name collision the officially-registered descriptor is the one yielded; no
name is yielded twice. -/
theorem iter_installed_spec (off ent : List BasePlugin) :
    ((Plugins.iter_installed off ent).map BasePlugin.name).Nodup
    ∧ (∃ offPart entPart,
        Plugins.iter_installed off ent = offPart ++ entPart
        ∧ (∀ p ∈ offPart, p ∈ off)
        ∧ (∀ p ∈ entPart, p ∈ ent ∧ p.name ∉ off.map BasePlugin.name))
    ∧ (∀ n, n ∈ (Plugins.iter_installed off ent).map BasePlugin.name ↔
        (n ∈ off.map BasePlugin.name ∨ n ∈ ent.map BasePlugin.name))
    ∧ (∀ p ∈ Plugins.iter_installed off ent,
        p.name ∈ off.map BasePlugin.name → p ∈ off) := by
  have hsplit := iterInstalledFrom_append off ent []
  refine ⟨nodup_names_iterInstalledFrom _ _, ?_, ?_, ?_⟩
  · refine ⟨iterInstalledFrom off [], iterInstalledFrom ent (seenAfter off []), hsplit, ?_, ?_⟩
    · exact fun p hp => mem_of_mem_iterInstalledFrom hp
    · intro p hp
      refine ⟨mem_of_mem_iterInstalledFrom hp, fun hname => ?_⟩
      exact name_not_mem_seen_of_mem_iterInstalledFrom hp (name_mem_seenAfter off [] hname)
  · intro n
    constructor
    · intro hn
      rcases List.mem_map.mp hn with ⟨p, hp, rfl⟩
      have := mem_of_mem_iterInstalledFrom hp
      rcases List.mem_append.mp this with h | h
      · exact Or.inl (List.mem_map_of_mem _ h)
      · exact Or.inr (List.mem_map_of_mem _ h)
    · intro hn
      rcases hn with hn | hn
      · rcases names_coverage off [] hn with hc | hc
        · simp at hc
        · rw [Plugins.iter_installed, hsplit, List.map_append]
          exact List.mem_append_left _ hc
      · rcases names_coverage ent (seenAfter off []) hn with hc | hc
        · rcases mem_of_mem_seenAfter off [] hc with hc | hc
          · rcases names_coverage off [] hc with hc2 | hc2
            · simp at hc2
            · rw [Plugins.iter_installed, hsplit, List.map_append]
              exact List.mem_append_left _ hc2
          · simp at hc
        · rw [Plugins.iter_installed, hsplit, List.map_append]
          exact List.mem_append_right _ hc
  · intro p hp hname
    rw [Plugins.iter_installed, hsplit] at hp
    rcases List.mem_append.mp hp with h | h
    · exact mem_of_mem_iterInstalledFrom h
    · exact absurd (name_mem_seenAfter off [] hname)
        (name_not_mem_seen_of_mem_iterInstalledFrom h)

theorem foldl_addPlugin_patches_none :
    ∀ (l : List BasePlugin) (st : Plugins) (X : String),
      (∀ p ∈ l, dictGet p.patches X = none) →
      dictGet (l.foldl Plugins.addPlugin st).patches X = dictGet st.patches X
  | [], _, _, _ => rfl
  | p :: l, st, X, h => by
    simp only [List.foldl_cons]
    rw [foldl_addPlugin_patches_none l _ X (fun q hq => h q (List.mem_cons_of_mem _ hq))]
    simp only [Plugins.addPlugin]
    exact foldEntries_dictGet_of_not_mem p.name p.patches st.patches X
      ((dictGet_eq_none_iff _ _).mp (h p (List.mem_cons_self _ _)))

theorem foldl_addPlugin_hooks_none :
    ∀ (l : List BasePlugin) (st : Plugins) (X : String),
      (∀ p ∈ l, dictGet p.hooks X = none) →
      dictGet (l.foldl Plugins.addPlugin st).hooks X = dictGet st.hooks X
  | [], _, _, _ => rfl
  | p :: l, st, X, h => by
    simp only [List.foldl_cons]
    rw [foldl_addPlugin_hooks_none l _ X (fun q hq => h q (List.mem_cons_of_mem _ hq))]
    simp only [Plugins.addPlugin]
    exact foldEntries_dictGet_of_not_mem p.name p.hooks st.hooks X
      ((dictGet_eq_none_iff _ _).mp (h p (List.mem_cons_self _ _)))

/-- C10: for every registry and every patch name or hook name to which no
enabled plugin contributed, `iterPatches(name)` and `iterHooks(name)` yield
the empty sequence rather than raising an error: the index lookups are
total functions. -/
theorem iter_patches_iter_hooks_empty (off ent : List BasePlugin) (cfg : Config)
    (X Y : String)
    (hp : ∀ p ∈ enabledList off ent cfg, dictGet p.patches X = none)
    (hh : ∀ p ∈ enabledList off ent cfg, dictGet p.hooks Y = none) :
    (Plugins.init off ent cfg).iter_patches X = []
    ∧ (Plugins.init off ent cfg).iter_hooks Y = [] := by
  have h1 : dictGet (Plugins.init off ent cfg).patches X = none := by
    rw [Plugins.init, foldl_addPlugin_patches_none _ _ X hp]
    rfl
  have h2 : dictGet (Plugins.init off ent cfg).hooks Y = none := by
    rw [Plugins.init, foldl_addPlugin_hooks_none _ _ Y hh]
    rfl
  constructor
  · simp [Plugins.iter_patches, h1, sortNames, List.insertionSort]
  · simp [Plugins.iter_hooks, h2]

theorem iter_patches_iter_hooks_empty_witness :
    (∀ p ∈ enabledList [samplePluginA] [] sampleConfigAB, dictGet p.patches "zzz" = none)
    ∧ (∀ p ∈ enabledList [samplePluginA] [] sampleConfigAB, dictGet p.hooks "zzz" = none)
    ∧ ((Plugins.init [samplePluginA] [] sampleConfigAB).iter_patches "zzz" = []
        ∧ (Plugins.init [samplePluginA] [] sampleConfigAB).iter_hooks "zzz" = []) :=
  ⟨by decide, by decide,
    iter_patches_iter_hooks_empty [samplePluginA] [] sampleConfigAB "zzz" "zzz"
      (by decide) (by decide)⟩

theorem sortedAsc_of_sorted : ∀ {l : List String}, List.Sorted sLe l → sortedAsc l = true
  | [], _ => rfl
  | [_], _ => rfl
  | a :: b :: t, h => by
    have hab : sLe a b := List.rel_of_sorted_cons h b (List.mem_cons_self _ _)
    have ht : List.Sorted sLe (b :: t) := h.of_cons
    simp only [sortedAsc, Bool.and_eq_true]
    exact ⟨hab, sortedAsc_of_sorted ht⟩

theorem enabledList_names_nodup (off ent : List BasePlugin) (cfg : Config) :
    ((enabledList off ent cfg).map BasePlugin.name).Nodup :=
  List.Nodup.sublist ((List.filter_sublist _).map BasePlugin.name)
    (nodup_names_iterInstalledFrom _ _)

theorem mem_offApp_of_mem_enabledList {off ent : List BasePlugin} {cfg : Config}
    {p : BasePlugin} (hp : p ∈ enabledList off ent cfg) : p ∈ off ++ ent :=
  mem_of_mem_iterInstalledFrom (List.mem_of_mem_filter hp)

theorem patchContribs_keys_sublist :
    ∀ (l : List BasePlugin) (X : String),
      ((patchContribs l X).map Prod.fst).Sublist (l.map BasePlugin.name)
  | [], _ => List.Sublist.refl _
  | p :: l, X => by
    cases hc : dictGet p.patches X with
    | none =>
      simp only [patchContribs, List.filterMap_cons, hc, Option.map_none', List.map_cons]
      exact List.Sublist.cons _ (patchContribs_keys_sublist l X)
    | some c =>
      simp only [patchContribs, List.filterMap_cons, hc, Option.map_some', List.map_cons]
      exact List.Sublist.cons₂ _ (patchContribs_keys_sublist l X)

theorem foldl_dictSet_fresh {α : Type} :
    ∀ (contribs d : List (String × α)),
      ((contribs.map Prod.fst).Nodup) →
      (∀ k ∈ contribs.map Prod.fst, k ∉ d.map Prod.fst) →
      contribs.foldl (fun acc e => dictSet acc e.1 e.2) d = d ++ contribs
  | [], d, _, _ => by simp
  | (k, v) :: contribs, d, hnd, hfresh => by
    simp only [List.map_cons, List.nodup_cons] at hnd
    simp only [List.foldl_cons]
    rw [dictSet_of_not_mem d k v (hfresh k (by simp))]
    rw [foldl_dictSet_fresh contribs (d ++ [(k, v)]) hnd.2 ?_]
    · simp
    · intro k' hk'
      simp only [List.map_append, List.mem_append, List.map_cons, List.map_nil,
        List.mem_singleton, not_or]
      refine ⟨hfresh k' (List.mem_cons_of_mem _ hk'), ?_⟩
      intro hkk
      exact hnd.1 (hkk ▸ hk')

/-- The inner patches dict of the registry at patch name `X` is exactly the
contribution list of the enabled plugins. -/
theorem init_patches_getD (off ent : List BasePlugin) (cfg : Config) (X : String)
    (hkeys : ∀ p ∈ off ++ ent, (p.patches.map Prod.fst).Nodup) :
    (dictGet (Plugins.init off ent cfg).patches X).getD [] =
      patchContribs (enabledList off ent cfg) X := by
  rw [Plugins.init, foldl_addPlugin_patches X _ _
    (fun p hp => hkeys p (mem_offApp_of_mem_enabledList hp))]
  have hnd : ((patchContribs (enabledList off ent cfg) X).map Prod.fst).Nodup :=
    List.Nodup.sublist (patchContribs_keys_sublist _ X) (enabledList_names_nodup off ent cfg)
  have hbase : (dictGet (Plugins.mk cfg [] [] []).patches X).getD [] =
      ([] : List (String × String)) := rfl
  rw [hbase, foldl_dictSet_fresh _ [] hnd (by simp)]
  simp

theorem dictGet_eq_of_perm {α : Type} {d d' : List (String × α)}
    (hperm : d.Perm d') (hnd : (d.map Prod.fst).Nodup) (k : String) :
    dictGet d k = dictGet d' k := by
  have hnd' : (d'.map Prod.fst).Nodup := (hperm.map Prod.fst).nodup_iff.mp hnd
  cases h : dictGet d k with
  | none =>
    have hno := (dictGet_eq_none_iff d k).mp h
    symm
    rw [dictGet_eq_none_iff]
    intro hk
    exact hno ((hperm.map Prod.fst).mem_iff.mpr hk)
  | some v =>
    have hm := (dictGet_eq_some_iff_mem d hnd k v).mp h
    symm
    rw [dictGet_eq_some_iff_mem d' hnd' k v]
    exact hperm.mem_iff.mp hm

theorem mem_sorted_assoc_iff (d : List (String × String))
    (hnd : (d.map Prod.fst).Nodup) (pn c : String) :
    (pn, c) ∈ (sortNames (d.map Prod.fst)).map (fun k => (k, (dictGet d k).getD "")) ↔
      (pn, c) ∈ d := by
  constructor
  · intro h
    rcases List.mem_map.mp h with ⟨k, hk, heq⟩
    have hk1 : k = pn := congrArg Prod.fst heq
    subst hk1
    have hc : (dictGet d k).getD "" = c := congrArg Prod.snd heq
    have hkeys : k ∈ d.map Prod.fst := (List.mem_insertionSort sLe).mp hk
    rcases List.mem_map.mp hkeys with ⟨e, hmem, hfst⟩
    have hmem' : (k, e.2) ∈ d := by
      rw [← hfst]
      simpa using hmem
    have hget : dictGet d k = some e.2 := (dictGet_eq_some_iff_mem d hnd k e.2).mpr hmem'
    rw [hget] at hc
    simp only [Option.getD_some] at hc
    exact hc ▸ hmem'
  · intro hm
    have hget : dictGet d pn = some c := (dictGet_eq_some_iff_mem d hnd pn c).mpr hm
    refine List.mem_map.mpr ⟨pn, ?_, ?_⟩
    · exact (List.mem_insertionSort sLe).mpr (by simpa using List.mem_map_of_mem Prod.fst hm)
    · rw [hget]
      rfl

theorem foldl_addPlugin_patches_congr :
    ∀ (l : List BasePlugin) (st st' : Plugins), st.patches = st'.patches →
      (l.foldl Plugins.addPlugin st).patches = (l.foldl Plugins.addPlugin st').patches
  | [], _, _, h => h
  | p :: l, st, st', h => by
    simp only [List.foldl_cons]
    exact foldl_addPlugin_patches_congr l _ _ (by simp only [Plugins.addPlugin]; rw [h])

/-- C1: for every registry and every patch name `X`, `iterPatches(X)` yields
the `(pluginName, content)` pairs of exactly the enabled plugins that
contributed under `X`, ordered by plugin name ascending with no name
repeated, and the result is unchanged under reordering of the enabled-plugin
list in the configuration (enable order) and under any reordering of the
sources that leaves the enabled descriptors the same (discovery order). -/
theorem iter_patches_ordered (off ent : List BasePlugin) (cfg : Config) (X : String)
    (hkeys : ∀ p ∈ off ++ ent, (p.patches.map Prod.fst).Nodup) :
    sortedAsc (((Plugins.init off ent cfg).iter_patches X).map Prod.fst) = true
    ∧ (((Plugins.init off ent cfg).iter_patches X).map Prod.fst).Nodup
    ∧ (∀ pn c, (pn, c) ∈ (Plugins.init off ent cfg).iter_patches X ↔
        (pn, c) ∈ patchContribs (enabledList off ent cfg) X)
    ∧ (∀ cfg' : Config, (cfg.plugins.getD []).Perm (cfg'.plugins.getD []) →
        (Plugins.init off ent cfg').iter_patches X =
          (Plugins.init off ent cfg).iter_patches X)
    ∧ (∀ off' ent' : List BasePlugin,
        (∀ p ∈ off' ++ ent', (p.patches.map Prod.fst).Nodup) →
        (enabledList off' ent' cfg).Perm (enabledList off ent cfg) →
        (Plugins.init off' ent' cfg).iter_patches X =
          (Plugins.init off ent cfg).iter_patches X) := by
  have hchar : (Plugins.init off ent cfg).iter_patches X =
      (sortNames ((patchContribs (enabledList off ent cfg) X).map Prod.fst)).map
        (fun k => (k, (dictGet (patchContribs (enabledList off ent cfg) X) k).getD "")) := by
    rw [Plugins.iter_patches, init_patches_getD off ent cfg X hkeys]
  have hnd : ((patchContribs (enabledList off ent cfg) X).map Prod.fst).Nodup :=
    List.Nodup.sublist (patchContribs_keys_sublist _ X) (enabledList_names_nodup off ent cfg)
  have hfst : ((Plugins.init off ent cfg).iter_patches X).map Prod.fst =
      sortNames ((patchContribs (enabledList off ent cfg) X).map Prod.fst) := by
    rw [hchar, List.map_map]
    exact List.map_id' _
  refine ⟨?_, ?_, ?_, ?_, ?_⟩
  · rw [hfst]
    exact sortedAsc_of_sorted (List.sorted_insertionSort sLe _)
  · rw [hfst]
    exact (List.perm_insertionSort sLe _).nodup_iff.mpr hnd
  · intro pn c
    rw [hchar]
    exact mem_sorted_assoc_iff _ hnd pn c
  · intro cfg' hperm
    have hen : enabledList off ent cfg' = enabledList off ent cfg := by
      unfold enabledList
      apply List.filter_congr
      intro p _
      unfold is_enabled
      exact decide_eq_decide.mpr hperm.symm.mem_iff
    have hpatches : (Plugins.init off ent cfg').patches =
        (Plugins.init off ent cfg).patches := by
      rw [Plugins.init, Plugins.init, hen]
      exact foldl_addPlugin_patches_congr _ _ _ rfl
    rw [Plugins.iter_patches, Plugins.iter_patches, hpatches]
  · intro off' ent' hkeys' hperm
    have hchar' : (Plugins.init off' ent' cfg).iter_patches X =
        (sortNames ((patchContribs (enabledList off' ent' cfg) X).map Prod.fst)).map
          (fun k => (k, (dictGet (patchContribs (enabledList off' ent' cfg) X) k).getD "")) := by
      rw [Plugins.iter_patches, init_patches_getD off' ent' cfg X hkeys']
    have hcontr : (patchContribs (enabledList off' ent' cfg) X).Perm
        (patchContribs (enabledList off ent cfg) X) := hperm.filterMap _
    have hnd' : ((patchContribs (enabledList off' ent' cfg) X).map Prod.fst).Nodup :=
      List.Nodup.sublist (patchContribs_keys_sublist _ X)
        (enabledList_names_nodup off' ent' cfg)
    have hkeysEq : sortNames ((patchContribs (enabledList off' ent' cfg) X).map Prod.fst) =
        sortNames ((patchContribs (enabledList off ent cfg) X).map Prod.fst) := by
      exact List.eq_of_perm_of_sorted
        ((List.perm_insertionSort sLe _).trans
          ((hcontr.map Prod.fst).trans (List.perm_insertionSort sLe _).symm))
        (List.sorted_insertionSort sLe _) (List.sorted_insertionSort sLe _)
    have hfun : (fun k => (k, (dictGet (patchContribs (enabledList off' ent' cfg) X) k).getD ""))
        = (fun k => (k, (dictGet (patchContribs (enabledList off ent cfg) X) k).getD "")) := by
      funext k
      rw [dictGet_eq_of_perm hcontr hnd' k]
    rw [hchar, hchar', hkeysEq, hfun]

theorem iter_patches_ordered_witness :
    (∀ p ∈ [samplePluginB, samplePluginA] ++ [], ((p.patches.map Prod.fst).Nodup))
    ∧ ((Plugins.init [samplePluginB, samplePluginA] [] sampleConfigAB).iter_patches "p1"
        = [("A", "foo"), ("B", "bar")])
    ∧ (sortedAsc (((Plugins.init [samplePluginB, samplePluginA] []
          sampleConfigAB).iter_patches "p1").map Prod.fst) = true
        ∧ (((Plugins.init [samplePluginB, samplePluginA] []
          sampleConfigAB).iter_patches "p1").map Prod.fst).Nodup
        ∧ (∀ pn c, (pn, c) ∈ (Plugins.init [samplePluginB, samplePluginA] []
            sampleConfigAB).iter_patches "p1" ↔
            (pn, c) ∈ patchContribs (enabledList [samplePluginB, samplePluginA] []
              sampleConfigAB) "p1")
        ∧ (∀ cfg' : Config, (sampleConfigAB.plugins.getD []).Perm (cfg'.plugins.getD []) →
            (Plugins.init [samplePluginB, samplePluginA] [] cfg').iter_patches "p1" =
              (Plugins.init [samplePluginB, samplePluginA] []
                sampleConfigAB).iter_patches "p1")
        ∧ (∀ off' ent' : List BasePlugin,
            (∀ p ∈ off' ++ ent', (p.patches.map Prod.fst).Nodup) →
            (enabledList off' ent' sampleConfigAB).Perm
              (enabledList [samplePluginB, samplePluginA] [] sampleConfigAB) →
            (Plugins.init off' ent' sampleConfigAB).iter_patches "p1" =
              (Plugins.init [samplePluginB, samplePluginA] []
                sampleConfigAB).iter_patches "p1")) :=
  ⟨by decide, by decide,
    iter_patches_ordered [samplePluginB, samplePluginA] [] sampleConfigAB "p1" (by decide)⟩

/-- C5: enabling a name absent from the catalog fails with the
not-installed `TutorError` and leaves the configuration completely
unchanged (the returned configuration is the input). -/
theorem enable_not_installed (off ent : List BasePlugin) (cfg : Config) (name : String)
    (h : is_installed off ent name = false) :
    enable off ent cfg name =
      (some (.tutorError ("plugin '" ++ name ++ "' is not installed.")), cfg) := by
  simp [enable, h]

theorem enable_not_installed_witness :
    is_installed [] [] "unknown" = false
    ∧ enable [] [] (Config.mk none []) "unknown" =
        (some (.tutorError ("plugin '" ++ "unknown" ++ "' is not installed.")),
          Config.mk none []) :=
  ⟨by decide, enable_not_installed [] [] (Config.mk none []) "unknown" (by decide)⟩

theorem filter_bne_erase (a : String) :
    ∀ (l : List String), (l.erase a).filter (fun x => x != a) = l.filter (fun x => x != a)
  | [] => rfl
  | x :: l => by
    by_cases h : x = a
    · subst h
      rw [List.erase_cons_head]
      simp [List.filter_cons]
    · rw [List.erase_cons_tail (by simpa using h)]
      have hx : (x != a) = true := by simpa using h
      simp only [List.filter_cons, hx, if_true]
      rw [filter_bne_erase a l]

theorem removeAll_eq_filter (l : List String) (name : String) :
    removeAll l name = l.filter (fun x => x != name) := by
  rw [removeAll]
  split
  · next h =>
    rw [removeAll_eq_filter (l.erase name) name]
    exact filter_bne_erase name l
  · next h =>
    symm
    rw [List.filter_eq_self]
    intro x hx
    simp only [bne_iff_ne, ne_eq, decide_eq_true_eq]
    intro hxe
    exact h (hxe ▸ hx)
termination_by l.length
decreasing_by
  rename_i h
  rw [List.length_erase_of_mem h]
  exact Nat.sub_lt (List.length_pos.mpr (List.ne_nil_of_mem h)) Nat.one_pos

/-- C6: `disable(config, name)` removes every occurrence of `name` from
`config[PLUGINS]` (tolerating absence of the name and duplicates) and
fails with a `KeyError` on the `PLUGINS` key, leaving the configuration
unchanged, when that key is absent. -/
theorem disable_spec (cfg : Config) (name : String) :
    disable cfg name =
      match cfg.plugins with
      | none => (some (.keyError CONFIG_KEY), cfg)
      | some l => (none, { cfg with plugins := some (l.filter (fun x => x != name)) }) := by
  cases h : cfg.plugins with
  | none => simp [disable, h]
  | some l => simp [disable, h, removeAll_eq_filter]

/-- C4 counterexample: plugin "A" is installed and already enabled in a
configuration whose `PLUGINS` list `["B", "A"]` is unsorted; `enable` is a
no-op, so afterwards `config[PLUGINS]` is still not sorted ascending,
contradicting the claim's unconditional conclusion. -/
theorem enable_sorted_counterexample :
    is_installed [samplePluginA] [] "A" = true
    ∧ (enable [samplePluginA] [] (Config.mk (some ["B", "A"]) []) "A").2.plugins
        = some ["B", "A"]
    ∧ sortedAsc ["B", "A"] = false := by decide

/-- C4 (amended): for an installed plugin name `P` and a configuration
whose `PLUGINS` list (when present) is sorted ascending and contains at
most one occurrence of `P`, `enable(C, P)` succeeds, afterwards
`isEnabled(C, P)` is true and `config[PLUGINS]` is sorted ascending with
exactly one occurrence of `P`; when `P` was already enabled the
configuration is unchanged. -/
theorem enable_sorted (off ent : List BasePlugin) (cfg : Config) (P : String)
    (hinst : is_installed off ent P = true)
    (hsorted : sortedAsc (cfg.plugins.getD []) = true)
    (hcount : List.count P (cfg.plugins.getD []) ≤ 1) :
    (enable off ent cfg P).1 = none
    ∧ is_enabled (enable off ent cfg P).2 P = true
    ∧ sortedAsc ((enable off ent cfg P).2.plugins.getD []) = true
    ∧ List.count P ((enable off ent cfg P).2.plugins.getD []) = 1
    ∧ (is_enabled cfg P = true → (enable off ent cfg P).2 = cfg) := by
  have hni : ¬ ¬ is_installed off ent P = true := by simp [hinst]
  by_cases hen : is_enabled cfg P = true
  · have hres : enable off ent cfg P = (none, cfg) := by
      simp [enable, hinst, hen]
    have hmem : P ∈ cfg.plugins.getD [] := by
      simpa [is_enabled] using hen
    refine ⟨by simp [hres], by simp [hres, hen], by simp [hres, hsorted], ?_, fun _ => by
      simp [hres]⟩
    have h1 : 1 ≤ List.count P (cfg.plugins.getD []) := List.one_le_count_iff.mpr hmem
    simp only [hres]
    exact le_antisymm hcount h1
  · have hres : enable off ent cfg P =
        (none, { cfg with plugins := some (sortNames (cfg.plugins.getD [] ++ [P])) }) := by
      simp [enable, hinst, hen]
    have hnotmem : P ∉ cfg.plugins.getD [] := by
      simpa [is_enabled] using hen
    have hperm : (sortNames (cfg.plugins.getD [] ++ [P])).Perm
        (cfg.plugins.getD [] ++ [P]) := List.perm_insertionSort sLe _
    refine ⟨by simp [hres], ?_, ?_, ?_, fun hc => absurd hc hen⟩
    · simp only [hres, is_enabled, Option.getD_some, decide_eq_true_eq]
      exact (List.mem_insertionSort sLe).mpr (List.mem_append_right _ (List.mem_singleton.mpr rfl))
    · simp only [hres, Option.getD_some]
      exact sortedAsc_of_sorted (List.sorted_insertionSort sLe _)
    · simp only [hres, Option.getD_some]
      rw [hperm.count_eq P, List.count_append]
      rw [List.count_eq_zero_of_not_mem hnotmem]
      simp

theorem enable_sorted_witness :
    is_installed [samplePluginA, samplePluginB] [] "A" = true
    ∧ sortedAsc ((Config.mk (some ["B"]) []).plugins.getD []) = true
    ∧ List.count "A" ((Config.mk (some ["B"]) []).plugins.getD []) ≤ 1
    ∧ ((enable [samplePluginA, samplePluginB] [] (Config.mk (some ["B"]) []) "A").1 = none
        ∧ is_enabled (enable [samplePluginA, samplePluginB] []
            (Config.mk (some ["B"]) []) "A").2 "A" = true
        ∧ sortedAsc ((enable [samplePluginA, samplePluginB] []
            (Config.mk (some ["B"]) []) "A").2.plugins.getD []) = true
        ∧ List.count "A" ((enable [samplePluginA, samplePluginB] []
            (Config.mk (some ["B"]) []) "A").2.plugins.getD []) = 1
        ∧ (is_enabled (Config.mk (some ["B"]) []) "A" = true →
            (enable [samplePluginA, samplePluginB] [] (Config.mk (some ["B"]) []) "A").2 =
              Config.mk (some ["B"]) [])) :=
  ⟨by decide, by decide, by decide,
    enable_sorted [samplePluginA, samplePluginB] [] (Config.mk (some ["B"]) []) "A"
      (by decide) (by decide) (by decide)⟩

theorem enable_ok (off ent : List BasePlugin) (cfg : Config) (P : String)
    (hinst : is_installed off ent P = true) :
    (enable off ent cfg P).1 = none
    ∧ (cfg.plugins.isSome = true → (enable off ent cfg P).2.plugins.isSome = true) := by
  by_cases hen : is_enabled cfg P = true
  · simp [enable, hinst, hen]
  · simp [enable, hinst, hen]

theorem disable_ok (cfg : Config) (P : String) (hkey : cfg.plugins.isSome = true) :
    (disable cfg P).1 = none ∧ (disable cfg P).2.plugins.isSome = true := by
  cases hc : cfg.plugins with
  | none => rw [hc] at hkey; simp at hkey
  | some l => simp [disable, hc]

theorem is_enabled_enable (off ent : List BasePlugin) (cfg : Config) (P : String)
    (hinst : is_installed off ent P = true) :
    is_enabled (enable off ent cfg P).2 P = true := by
  by_cases hen : is_enabled cfg P = true
  · simp [enable, hinst, hen]
  · have hres : (enable off ent cfg P).2 =
        { cfg with plugins := some (sortNames (cfg.plugins.getD [] ++ [P])) } := by
      simp [enable, hinst, hen]
    rw [hres]
    simp only [is_enabled, Option.getD_some, decide_eq_true_eq]
    exact (List.mem_insertionSort sLe).mpr
      (List.mem_append_right _ (List.mem_singleton.mpr rfl))

theorem is_enabled_disable (cfg : Config) (P : String) :
    is_enabled (disable cfg P).2 P = false := by
  cases hc : cfg.plugins with
  | none => simp [disable, hc, is_enabled]
  | some l =>
    simp only [disable, hc, is_enabled, Option.getD_some, decide_eq_false_iff_not]
    rw [removeAll_eq_filter]
    intro hmem
    have := (List.mem_filter.mp hmem).2
    simp at this

theorem runOps_ok :
    ∀ (ops : List Op) (off ent : List BasePlugin) (P : String) (cfg : Config),
      is_installed off ent P = true → cfg.plugins.isSome = true →
      (runOps off ent P ops cfg).1 = none
      ∧ (runOps off ent P ops cfg).2.plugins.isSome = true
  | [], _, _, _, _, _, hkey => ⟨rfl, hkey⟩
  | op :: ops, off, ent, P, cfg, hinst, hkey => by
    cases op with
    | en =>
      have he := enable_ok off ent cfg P hinst
      have hstep : runOps off ent P (Op.en :: ops) cfg =
          runOps off ent P ops (enable off ent cfg P).2 := by
        cases hE : enable off ent cfg P with
        | mk e c =>
          cases e with
          | none => simp [runOps, runOp, hE]
          | some err => rw [hE] at he; simp at he
      rw [hstep]
      exact runOps_ok ops off ent P _ hinst (he.2 hkey)
    | dis =>
      have hd := disable_ok cfg P hkey
      have hstep : runOps off ent P (Op.dis :: ops) cfg =
          runOps off ent P ops (disable cfg P).2 := by
        cases hD : disable cfg P with
        | mk e c =>
          cases e with
          | none => simp [runOps, runOp, hD]
          | some err => rw [hD] at hd; simp at hd
      rw [hstep]
      exact runOps_ok ops off ent P _ hinst hd.2

theorem runOps_append (off ent : List BasePlugin) (P : String) :
    ∀ (l1 l2 : List Op) (cfg : Config),
      (runOps off ent P l1 cfg).1 = none →
      runOps off ent P (l1 ++ l2) cfg = runOps off ent P l2 (runOps off ent P l1 cfg).2
  | [], _, _, _ => rfl
  | op :: l1, l2, cfg, h => by
    cases hr : runOp off ent P op cfg with
    | mk e c =>
      cases e with
      | none =>
        simp only [List.cons_append, runOps, hr] at h ⊢
        exact runOps_append off ent P l1 l2 c h
      | some err =>
        simp only [runOps, hr] at h
        exact Option.noConfusion h

theorem runOps_single (off ent : List BasePlugin) (P : String) (op : Op) (cfg : Config)
    (h : (runOp off ent P op cfg).1 = none) :
    runOps off ent P [op] cfg = (none, (runOp off ent P op cfg).2) := by
  cases hr : runOp off ent P op cfg with
  | mk e c =>
    cases e with
    | none => simp [runOps, hr]
    | some err => rw [hr] at h; simp at h

/-- C8: for an installed plugin name `P` and a configuration whose
`PLUGINS` key exists, any nonempty sequence of `enable(C, P)` /
`disable(C, P)` calls runs without error and afterwards `isEnabled(C, P)`
is true exactly when the last operation was `enable`, independent of the
sequence's length or interleaving. -/
theorem enable_disable_last (off ent : List BasePlugin) (P : String) (cfg : Config)
    (ops : List Op) (hne : ops ≠ [])
    (hinst : is_installed off ent P = true) (hkey : cfg.plugins.isSome = true) :
    (runOps off ent P ops cfg).1 = none
    ∧ is_enabled (runOps off ent P ops cfg).2 P = isEn (ops.getLast hne) := by
  rcases List.eq_nil_or_concat ops with rfl | ⟨init, last, hops⟩
  · exact absurd rfl hne
  · subst hops
    have h1 := runOps_ok init off ent P cfg hinst hkey
    have hlast : (init.concat last).getLast hne = last := by
      simp [List.getLast_concat]
    rw [hlast, List.concat_eq_append]
    have hsplit := runOps_append off ent P init [last] cfg h1.1
    rw [hsplit]
    cases last with
    | en =>
      have he := enable_ok off ent (runOps off ent P init cfg).2 P hinst
      have hs := runOps_single off ent P Op.en (runOps off ent P init cfg).2 he.1
      rw [hs]
      exact ⟨rfl, is_enabled_enable off ent _ P hinst⟩
    | dis =>
      have hd := disable_ok (runOps off ent P init cfg).2 P h1.2
      have hs := runOps_single off ent P Op.dis (runOps off ent P init cfg).2 hd.1
      rw [hs]
      exact ⟨rfl, is_enabled_disable _ P⟩

theorem enable_disable_last_witness :
    ([Op.en, Op.dis, Op.en] : List Op) ≠ []
    ∧ is_installed [samplePluginA] [] "A" = true
    ∧ (Config.mk (some []) []).plugins.isSome = true
    ∧ (runOps [samplePluginA] [] "A" [Op.en, Op.dis, Op.en] (Config.mk (some []) [])).1 = none
    ∧ is_enabled (runOps [samplePluginA] [] "A" [Op.en, Op.dis, Op.en]
        (Config.mk (some []) [])).2 "A" = true :=
  ⟨by decide, by decide, by decide,
    (enable_disable_last [samplePluginA] [] "A" (Config.mk (some []) [])
      [Op.en, Op.dis, Op.en] (by decide) (by decide) (by decide)).1,
    (enable_disable_last [samplePluginA] [] "A" (Config.mk (some []) [])
      [Op.en, Op.dis, Op.en] (by decide) (by decide) (by decide)).2⟩

theorem foldl_addPlugin_config :
    ∀ (l : List BasePlugin) (st : Plugins), (l.foldl Plugins.addPlugin st).config = st.config
  | [], _ => rfl
  | p :: l, st => by
    simp only [List.foldl_cons]
    rw [foldl_addPlugin_config l _]
    simp [Plugins.addPlugin]

theorem init_config (off ent : List BasePlugin) (cfg : Config) :
    (Plugins.init off ent cfg).config = cfg := by
  rw [Plugins.init, foldl_addPlugin_config]

/-- C3: `instance(config)` returns the cached registry exactly when the
cache's stored configuration snapshot equals `config` (deep equality of
values is the only notion of comparison in the embedding), and otherwise
constructs and stores a new registry; a freshly built registry stores the
configuration it was built from, so after the enabled-plugin list changes
the rebuilt registry's `iterEnabled()` reflects the new membership. -/
theorem instance_cache (off ent : List BasePlugin) :
    (∀ (r : Plugins) (cfg : Config), r.config = cfg →
      Plugins.instance' off ent (some r) cfg = (r, some r))
    ∧ (∀ (inst : Option Plugins) (cfg : Config),
        (∀ r, inst = some r → r.config ≠ cfg) →
        Plugins.instance' off ent inst cfg =
          (Plugins.init off ent cfg, some (Plugins.init off ent cfg)))
    ∧ (∀ cfg : Config, (Plugins.init off ent cfg).config = cfg
        ∧ (Plugins.init off ent cfg).iter_enabled off ent = enabledList off ent cfg) := by
  refine ⟨?_, ?_, ?_⟩
  · intro r cfg h
    simp [Plugins.instance', h]
  · intro inst cfg h
    cases inst with
    | none => rfl
    | some r => simp [Plugins.instance', h r rfl]
  · intro cfg
    refine ⟨init_config off ent cfg, ?_⟩
    rw [Plugins.iter_enabled, init_config]

theorem instance_cache_witness :
    ((Plugins.init [samplePluginA] [] sampleConfigAB).config = sampleConfigAB
      ∧ (Plugins.init [samplePluginA] [] sampleConfigAB).iter_enabled [samplePluginA] []
          = enabledList [samplePluginA] [] sampleConfigAB)
    ∧ Plugins.instance' [samplePluginA] []
        (some (Plugins.init [samplePluginA] [] sampleConfigAB)) sampleConfigAB =
        (Plugins.init [samplePluginA] [] sampleConfigAB,
          some (Plugins.init [samplePluginA] [] sampleConfigAB))
    ∧ Plugins.instance' [samplePluginA] []
        (some (Plugins.init [samplePluginA] [] sampleConfigAB)) (Config.mk (some []) []) =
        (Plugins.init [samplePluginA] [] (Config.mk (some []) []),
          some (Plugins.init [samplePluginA] [] (Config.mk (some []) []))) :=
  ⟨(instance_cache [samplePluginA] []).2.2 sampleConfigAB,
    (instance_cache [samplePluginA] []).1
      (Plugins.init [samplePluginA] [] sampleConfigAB) sampleConfigAB (by decide),
    (instance_cache [samplePluginA] []).2.1
      (some (Plugins.init [samplePluginA] [] sampleConfigAB)) (Config.mk (some []) [])
      (by intro r h; cases h; decide)⟩

/-- C7: `BasePlugin.__init__` resolves each of `config`, `patches`, `hooks`
and `templates` to its default when the attribute is absent, invokes the
attribute exactly once when it is callable, and uses the attribute value
itself otherwise; `command` is stored raw, without invocation; every case
is total (no error for absent attributes). -/
theorem base_plugin_init_spec (name : String) (obj : PluginObj) :
    ((BasePlugin.init name obj).1.name = name)
    ∧ (obj.config = .absent →
        (BasePlugin.init name obj).1.config = [] ∧ (BasePlugin.init name obj).2.config = 0)
    ∧ (∀ v, obj.config = .val v →
        (BasePlugin.init name obj).1.config = v ∧ (BasePlugin.init name obj).2.config = 0)
    ∧ (∀ f, obj.config = .fn f →
        (BasePlugin.init name obj).1.config = f () ∧ (BasePlugin.init name obj).2.config = 1)
    ∧ (obj.patches = .absent →
        (BasePlugin.init name obj).1.patches = [] ∧ (BasePlugin.init name obj).2.patches = 0)
    ∧ (∀ v, obj.patches = .val v →
        (BasePlugin.init name obj).1.patches = v ∧ (BasePlugin.init name obj).2.patches = 0)
    ∧ (∀ f, obj.patches = .fn f →
        (BasePlugin.init name obj).1.patches = f () ∧ (BasePlugin.init name obj).2.patches = 1)
    ∧ (obj.hooks = .absent →
        (BasePlugin.init name obj).1.hooks = [] ∧ (BasePlugin.init name obj).2.hooks = 0)
    ∧ (∀ v, obj.hooks = .val v →
        (BasePlugin.init name obj).1.hooks = v ∧ (BasePlugin.init name obj).2.hooks = 0)
    ∧ (∀ f, obj.hooks = .fn f →
        (BasePlugin.init name obj).1.hooks = f () ∧ (BasePlugin.init name obj).2.hooks = 1)
    ∧ (obj.templates = .absent →
        (BasePlugin.init name obj).1.templates_root = none
          ∧ (BasePlugin.init name obj).2.templates = 0)
    ∧ (∀ v, obj.templates = .val v →
        (BasePlugin.init name obj).1.templates_root = v
          ∧ (BasePlugin.init name obj).2.templates = 0)
    ∧ (∀ f, obj.templates = .fn f →
        (BasePlugin.init name obj).1.templates_root = f ()
          ∧ (BasePlugin.init name obj).2.templates = 1)
    ∧ ((BasePlugin.init name obj).1.command = getattrOrNone obj.command) := by
  refine ⟨rfl, ?_, ?_, ?_, ?_, ?_, ?_, ?_, ?_, ?_, ?_, ?_, ?_, rfl⟩
  · intro h; simp [BasePlugin.init, get_callable_attr, getattrOr, h]
  · intro v h; simp [BasePlugin.init, get_callable_attr, getattrOr, h]
  · intro f h; simp [BasePlugin.init, get_callable_attr, getattrOr, h]
  · intro h; simp [BasePlugin.init, get_callable_attr, getattrOr, h]
  · intro v h; simp [BasePlugin.init, get_callable_attr, getattrOr, h]
  · intro f h; simp [BasePlugin.init, get_callable_attr, getattrOr, h]
  · intro h; simp [BasePlugin.init, get_callable_attr, getattrOr, h]
  · intro v h; simp [BasePlugin.init, get_callable_attr, getattrOr, h]
  · intro f h; simp [BasePlugin.init, get_callable_attr, getattrOr, h]
  · intro h; simp [BasePlugin.init, get_callable_attr, getattrOr, h]
  · intro v h; simp [BasePlugin.init, get_callable_attr, getattrOr, h]
  · intro f h; simp [BasePlugin.init, get_callable_attr, getattrOr, h]

theorem base_plugin_init_spec_witness :
    ((BasePlugin.init "A" sampleObj).1.name = "A")
    ∧ ((BasePlugin.init "A" sampleObj).1.config = [("k", [("a", "b")])]
        ∧ (BasePlugin.init "A" sampleObj).2.config = 1)
    ∧ ((BasePlugin.init "A" sampleObj).1.patches = [("p1", "foo")]
        ∧ (BasePlugin.init "A" sampleObj).2.patches = 0)
    ∧ ((BasePlugin.init "A" sampleObj).1.hooks = []
        ∧ (BasePlugin.init "A" sampleObj).2.hooks = 0)
    ∧ ((BasePlugin.init "A" sampleObj).1.templates_root = some "/t"
        ∧ (BasePlugin.init "A" sampleObj).2.templates = 1)
    ∧ ((BasePlugin.init "A" sampleObj).1.command = getattrOrNone sampleObj.command) :=
  ⟨(base_plugin_init_spec "A" sampleObj).1,
    (base_plugin_init_spec "A" sampleObj).2.2.2.1 _ rfl,
    (base_plugin_init_spec "A" sampleObj).2.2.2.2.2.1 _ rfl,
    (base_plugin_init_spec "A" sampleObj).2.2.2.2.2.2.2.1 rfl,
    (base_plugin_init_spec "A" sampleObj).2.2.2.2.2.2.2.2.2.2.2.2.1 _ rfl,
    (base_plugin_init_spec "A" sampleObj).2.2.2.2.2.2.2.2.2.2.2.2.2⟩

theorem dictGet_mem {α : Type} :
    ∀ {d : List (String × α)} {k : String} {v : α}, dictGet d k = some v → (k, v) ∈ d
  | [], _, _, h => by simp [dictGet] at h
  | (k', w) :: d, k, v, h => by
    by_cases he : k' = k
    · subst he
      have hw : dictGet ((k', w) :: d) k' = some w := by simp [dictGet]
      rw [hw] at h
      obtain rfl : w = v := by injection h
      exact List.mem_cons_self _ _
    · simp only [dictGet, if_neg he] at h
      exact List.mem_cons_of_mem _ (dictGet_mem h)

theorem mem_idxContribNames_addIndexEntry {α : Type}
    (idx : List (String × List (String × α))) (key pname : String) (v : α) {n : String}
    (h : n ∈ idxContribNames (addIndexEntry idx key pname v)) :
    n ∈ idxContribNames idx ∨ n = pname := by
  simp only [idxContribNames, List.mem_flatMap] at h
  rcases h with ⟨e, he, hn⟩
  rcases mem_dictSet _ _ _ _ he with he' | rfl
  · exact Or.inl (List.mem_flatMap.mpr ⟨e, he', hn⟩)
  · simp only at hn
    rcases List.mem_map.mp hn with ⟨e2, he2, rfl⟩
    rcases mem_dictSet _ _ _ _ he2 with he2' | rfl
    · cases hg : dictGet idx key with
      | none => rw [hg] at he2'; simp at he2'
      | some inner =>
        rw [hg] at he2'
        simp only [Option.getD_some] at he2'
        refine Or.inl (List.mem_flatMap.mpr ⟨(key, inner), dictGet_mem hg, ?_⟩)
        exact List.mem_map_of_mem Prod.fst he2'
    · exact Or.inr rfl

theorem mem_idxContribNames_foldEntries {α : Type} (pname : String) :
    ∀ (es : List (String × α)) (idx : List (String × List (String × α))) {n : String},
      n ∈ idxContribNames (es.foldl (fun i e => addIndexEntry i e.1 pname e.2) idx) →
      n ∈ idxContribNames idx ∨ n = pname
  | [], _, _, h => Or.inl h
  | e :: es, idx, n, h => by
    simp only [List.foldl_cons] at h
    rcases mem_idxContribNames_foldEntries pname es _ h with h2 | h2
    · exact mem_idxContribNames_addIndexEntry idx e.1 pname e.2 h2
    · exact Or.inr h2

theorem mem_idxContribNames_foldl_patches :
    ∀ (l : List BasePlugin) (st : Plugins) {n : String},
      n ∈ idxContribNames (l.foldl Plugins.addPlugin st).patches →
      n ∈ idxContribNames st.patches ∨ n ∈ l.map BasePlugin.name
  | [], _, _, h => Or.inl h
  | p :: l, st, n, h => by
    simp only [List.foldl_cons] at h
    rcases mem_idxContribNames_foldl_patches l _ h with h2 | h2
    · simp only [Plugins.addPlugin] at h2
      rcases mem_idxContribNames_foldEntries p.name _ _ h2 with h3 | h3
      · exact Or.inl h3
      · exact Or.inr (by simp [h3])
    · exact Or.inr (List.mem_cons_of_mem _ (by simpa using h2))

theorem mem_idxContribNames_foldl_hooks :
    ∀ (l : List BasePlugin) (st : Plugins) {n : String},
      n ∈ idxContribNames (l.foldl Plugins.addPlugin st).hooks →
      n ∈ idxContribNames st.hooks ∨ n ∈ l.map BasePlugin.name
  | [], _, _, h => Or.inl h
  | p :: l, st, n, h => by
    simp only [List.foldl_cons] at h
    rcases mem_idxContribNames_foldl_hooks l _ h with h2 | h2
    · simp only [Plugins.addPlugin] at h2
      rcases mem_idxContribNames_foldEntries p.name _ _ h2 with h3 | h3
      · exact Or.inl h3
      · exact Or.inr (by simp [h3])
    · exact Or.inr (List.mem_cons_of_mem _ (by simpa using h2))

theorem mem_roots_foldl :
    ∀ (l : List BasePlugin) (st : Plugins) {n : String},
      n ∈ (l.foldl Plugins.addPlugin st).template_roots.map Prod.fst →
      n ∈ st.template_roots.map Prod.fst ∨ n ∈ l.map BasePlugin.name
  | [], _, _, h => Or.inl h
  | p :: l, st, n, h => by
    simp only [List.foldl_cons] at h
    rcases mem_roots_foldl l _ h with h2 | h2
    · simp only [Plugins.addPlugin] at h2
      cases ht : p.templates_root with
      | none =>
        rw [ht] at h2
        exact Or.inl h2
      | some s =>
        rw [ht] at h2
        replace h2 : n ∈ List.map Prod.fst
            (if s.isEmpty = true then st.template_roots
             else dictSet st.template_roots p.name s) := h2
        by_cases hs : s.isEmpty = true
        · rw [if_pos hs] at h2
          exact Or.inl h2
        · rw [if_neg hs] at h2
          rcases List.mem_map.mp h2 with ⟨e, he, rfl⟩
          rcases mem_dictSet _ _ _ _ he with he' | rfl
          · exact Or.inl (List.mem_map_of_mem Prod.fst he')
          · exact Or.inr (by simp)
    · exact Or.inr (List.mem_cons_of_mem _ (by simpa using h2))

/-- C9: when `config[PLUGINS]` contains a name with no matching installed
plugin, registry construction and `iterEnabled()` are total (no error) and
silently skip the name: `iterEnabled()` is exactly the installed plugins
whose names are enabled, and the unmatched name contributes nothing to the
patches, hooks or template-root indices. -/
theorem unknown_enabled_name_skipped (off ent : List BasePlugin) (cfg : Config) (n : String)
    (_hmem : is_enabled cfg n = true)
    (hnin : is_installed off ent n = false) :
    (Plugins.init off ent cfg).iter_enabled off ent = enabledList off ent cfg
    ∧ n ∉ (enabledList off ent cfg).map BasePlugin.name
    ∧ n ∉ idxContribNames (Plugins.init off ent cfg).patches
    ∧ n ∉ idxContribNames (Plugins.init off ent cfg).hooks
    ∧ n ∉ (Plugins.init off ent cfg).template_roots.map Prod.fst := by
  have hninst : n ∉ (Plugins.iter_installed off ent).map BasePlugin.name := by
    simpa [is_installed, iter_installed] using hnin
  have hnen : n ∉ (enabledList off ent cfg).map BasePlugin.name := by
    intro hn
    exact hninst (((List.filter_sublist _).map BasePlugin.name).subset hn)
  refine ⟨?_, hnen, ?_, ?_, ?_⟩
  · rw [Plugins.iter_enabled, init_config]
  · intro hn
    rw [Plugins.init] at hn
    rcases mem_idxContribNames_foldl_patches _ _ hn with h | h
    · simp [idxContribNames] at h
    · exact hnen h
  · intro hn
    rw [Plugins.init] at hn
    rcases mem_idxContribNames_foldl_hooks _ _ hn with h | h
    · simp [idxContribNames] at h
    · exact hnen h
  · intro hn
    rw [Plugins.init] at hn
    rcases mem_roots_foldl _ _ hn with h | h
    · simp at h
    · exact hnen h

theorem unknown_enabled_name_skipped_witness :
    is_enabled (Config.mk (some ["A", "ghost"]) []) "ghost" = true
    ∧ is_installed [samplePluginA] [] "ghost" = false
    ∧ ((Plugins.init [samplePluginA] [] (Config.mk (some ["A", "ghost"]) [])).iter_enabled
          [samplePluginA] []
        = enabledList [samplePluginA] [] (Config.mk (some ["A", "ghost"]) [])
      ∧ "ghost" ∉ (enabledList [samplePluginA] []
          (Config.mk (some ["A", "ghost"]) [])).map BasePlugin.name
      ∧ "ghost" ∉ idxContribNames
          (Plugins.init [samplePluginA] [] (Config.mk (some ["A", "ghost"]) [])).patches
      ∧ "ghost" ∉ idxContribNames
          (Plugins.init [samplePluginA] [] (Config.mk (some ["A", "ghost"]) [])).hooks
      ∧ "ghost" ∉ (Plugins.init [samplePluginA] []
          (Config.mk (some ["A", "ghost"]) [])).template_roots.map Prod.fst) :=
  ⟨by decide, by decide,
    unknown_enabled_name_skipped [samplePluginA] [] (Config.mk (some ["A", "ghost"]) [])
      "ghost" (by decide) (by decide)⟩

end Tutor
